import Mathlib

/-!
Shallow embedding of `src/streamlit_app.py` (an on-page SEO analysis tool)
and verification of its specification's claims.

The Python program fetches a page, extracts title / meta description /
headings / body text, computes a heuristic score, ranks keyword
frequencies, asks an external service for advice (with a static fallback),
and renders a comparison between two sites.  Every function modelled here
follows the Python source line by line; external effects (the HTTP
response, the text-generation service outcome) are passed in explicitly.
-/

namespace SeoApp

/-- The heading map built by `extract_onpage_data`: for each of
`h1`..`h4`, the ordered list of heading texts. -/
structure Headers where
  h1 : List String
  h2 : List String
  h3 : List String
  h4 : List String
deriving DecidableEq, Repr

/-! ## Scorer (`calculate_seo_score`, lines 53-90)

The Python function accumulates `score += ...` through five independent
branches and returns `min(score, 60)`.  We embed each branch as a function
of the quantity it inspects. -/

/-- Title-length branch of `calculate_seo_score` (lines 59-64):
`if 50 <= len(title) <= 60: score += 20`,
`elif 30 <= len(title) < 50 or 60 < len(title) <= 70: score += 10`,
`else: score += 5`. -/
def titleLenPoints (n : Nat) : Nat :=
  if 50 ≤ n ∧ n ≤ 60 then 20
  else if (30 ≤ n ∧ n < 50) ∨ (60 < n ∧ n ≤ 70) then 10
  else 5

/-- Description-length branch of `calculate_seo_score` (lines 67-72):
`if 120 <= len(meta_desc) <= 160: score += 20`,
`elif 80 <= len(meta_desc) < 120 or 160 < len(meta_desc) <= 200: score += 10`,
`else: score += 5`. -/
def descLenPoints (n : Nat) : Nat :=
  if 120 ≤ n ∧ n ≤ 160 then 20
  else if (80 ≤ n ∧ n < 120) ∨ (160 < n ∧ n ≤ 200) then 10
  else 5

/-- H1-presence branch (lines 75-78): `if len(headers['h1']) > 0: score += 20`. -/
def h1Points (h : Headers) : Nat :=
  if 0 < h.h1.length then 20 else 0

/-- H2-usage branch (lines 84-85): `if h2_count >= 1: score += 10`. -/
def h2Points (h : Headers) : Nat :=
  if 1 ≤ h.h2.length then 10 else 0

/-- H3-usage branch (lines 86-87): `if h3_count >= 2: score += 10`. -/
def h3Points (h : Headers) : Nat :=
  if 2 ≤ h.h3.length then 10 else 0

/-- The accumulated `score` just before the `return min(score, 60)` line:
the sum of the five additive branches of `calculate_seo_score`. -/
def uncappedSeoScore (title meta_desc : String) (headers : Headers) : Nat :=
  titleLenPoints title.length + descLenPoints meta_desc.length +
    h1Points headers + h2Points headers + h3Points headers

/-- `calculate_seo_score` (lines 53-90): the accumulated score, capped by
`return min(score, 60)`. -/
def calculate_seo_score (title meta_desc : String) (headers : Headers) : Nat :=
  min (uncappedSeoScore title meta_desc headers) 60

/-! Spec-side rendering of the §4.3 scoring table, written from the
table's words ("50-60 chars", "30-49 or 61-70 chars", ...) so that the
code's branches can be compared against it. -/

/-- Modelled from the spec: §4.3 table rows for the title signal. -/
def specTitlePoints (n : Nat) : Nat :=
  if 50 ≤ n ∧ n ≤ 60 then 20
  else if (30 ≤ n ∧ n ≤ 49) ∨ (61 ≤ n ∧ n ≤ 70) then 10
  else 5

/-- Modelled from the spec: §4.3 table rows for the description signal. -/
def specDescPoints (n : Nat) : Nat :=
  if 120 ≤ n ∧ n ≤ 160 then 20
  else if (80 ≤ n ∧ n ≤ 119) ∨ (161 ≤ n ∧ n ≤ 200) then 10
  else 5

/-- Modelled from the spec: §4.3 table rows for h1 presence. -/
def specH1Points (h : Headers) : Nat :=
  if 1 ≤ h.h1.length then 20 else 0

/-- Modelled from the spec: §4.3 table row for h2 usage. -/
def specH2Points (h : Headers) : Nat :=
  if 1 ≤ h.h2.length then 10 else 0

/-- Modelled from the spec: §4.3 table row for h3 usage. -/
def specH3Points (h : Headers) : Nat :=
  if 2 ≤ h.h3.length then 10 else 0

/-- A string of `n` repeated characters, used to build titles and
descriptions of prescribed lengths. -/
def strOfLen (n : Nat) : String :=
  String.mk (List.replicate n 'a')

/-! ## Keyword analyzer (`get_top_keywords`, lines 102-115)

`words = re.findall(r'\b[a-zA-Z]{3,}\b', text.lower())`: the pattern
matches a maximal run of ASCII letters of length at least 3 whose
neighbours are word boundaries.  A `\b` boundary separates a word
character (`\w`) from a non-word character, so a letter run adjacent to
a word character yields no match at all (backtracking inside the run
cannot restore the boundary, and no match can start in the middle of a
run).  `\w` is Unicode-aware: digits, underscores and also non-ASCII
letters are word characters.  `tokenScan` embeds this scan for ASCII
text, where `\w` is exactly `[a-zA-Z0-9_]`; theorems quantifying over
texts therefore carry an explicit all-ASCII hypothesis, and every
concrete input below is ASCII.  The `prevOk` flag records whether the
previous character was a non-word character (or the start of the
text). -/

/-- The word-character class `\w` on the ASCII range: `[a-zA-Z0-9_]`.
Python's `\w` is Unicode-aware (non-ASCII letters are word characters
too), so the scan built on this predicate models the program on ASCII
text only; statements about the scan restrict to that domain. -/
def isWordChar (c : Char) : Bool :=
  c.isAlphanum || c = '_'

/-- The `\b` test after a matched run: the scan position is a word
boundary iff the next character (if any) is not a word character. -/
def boundaryAfter (l : List Char) : Bool :=
  match l with
  | [] => true
  | d :: _ => !isWordChar d

/-- The `re.findall(r'\b[a-zA-Z]{3,}\b', ·)` scan over a character list.
`prevOk` holds iff the previous character was not a word character (or we
are at the start), i.e. iff a `\b` boundary precedes the current
position when the current character is a letter.  Each step consumes at
least one character, so the scan is driven by a fuel argument that is
structurally decreasing; any `fuel ≥ l.length` yields the full scan, and
the wrapper `tokensOf` passes the list length. -/
def tokenScan (fuel : Nat) (prevOk : Bool) (l : List Char) : List (List Char) :=
  match fuel, l with
  | _, [] => []
  | 0, _ :: _ => []
  | fuel + 1, c :: cs =>
    if c.isAlpha then
      (if prevOk && decide (3 ≤ (c :: cs.takeWhile Char.isAlpha).length) &&
          boundaryAfter (cs.dropWhile Char.isAlpha)
       then [c :: cs.takeWhile Char.isAlpha] else []) ++
        tokenScan fuel false (cs.dropWhile Char.isAlpha)
    else
      tokenScan fuel (!isWordChar c) cs

/-- Modelled from the spec: the §4.4 tokenizer in which every non-letter
character "acts as a separator and is discarded", keeping the maximal
letter runs of length at least 3.  Fuel-driven like `tokenScan`. -/
def sepScan (fuel : Nat) (l : List Char) : List (List Char) :=
  match fuel, l with
  | _, [] => []
  | 0, _ :: _ => []
  | fuel + 1, c :: cs =>
    if c.isAlpha then
      (if 3 ≤ (c :: cs.takeWhile Char.isAlpha).length
       then [c :: cs.takeWhile Char.isAlpha] else []) ++
        sepScan fuel (cs.dropWhile Char.isAlpha)
    else
      sepScan fuel cs

/-- The token stream of `get_top_keywords`:
`re.findall(r'\b[a-zA-Z]{3,}\b', text.lower())`. -/
def tokensOf (text : String) : List String :=
  (tokenScan (text.data.map Char.toLower).length true
    (text.data.map Char.toLower)).map String.mk

/-- Modelled from the spec: the token stream of the §4.4 wording, where
every non-letter character is a separator. -/
def sepTokensOf (text : String) : List String :=
  (sepScan (text.data.map Char.toLower).length
    (text.data.map Char.toLower)).map String.mk

/-- One step of `freq[w] = freq.get(w, 0) + 1` on an insertion-ordered
association list (a Python `dict` preserves insertion order). -/
def bump (l : List (String × Nat)) (w : String) : List (String × Nat) :=
  match l with
  | [] => [(w, 1)]
  | (k, v) :: rest => if k = w then (k, v + 1) :: rest else (k, v) :: bump rest w

/-- The `freq` dict after the counting loop of `get_top_keywords`, as an
insertion-ordered association list. -/
def countFreq (ws : List String) : List (String × Nat) :=
  ws.foldl bump []

/-- Stable insertion for a descending sort by count: the new element goes
after every element of at least its count, before the first smaller one. -/
def insertByCountDesc (p : String × Nat) : List (String × Nat) → List (String × Nat)
  | [] => [p]
  | q :: rest => if p.2 ≤ q.2 then q :: insertByCountDesc p rest else p :: q :: rest

/-- `sorted(freq.items(), key=lambda x: x[1], reverse=True)`: Python's
sort is stable, and a stable descending sort by count is computed by
stable insertion of the items in insertion order. -/
def sortByCountDesc (l : List (String × Nat)) : List (String × Nat) :=
  l.foldl (fun acc p => insertByCountDesc p acc) []

/-- `get_top_keywords` (lines 102-115): tokenize, count, sort by count
descending (stable), truncate to the first `top_n` items. -/
def get_top_keywords (text : String) (top_n : Nat := 10) : List (String × Nat) :=
  (sortByCountDesc (countFreq (tokensOf text))).take top_n

/-! ## Fetcher (`fetch_html`, lines 15-31)

The HTTP request is the program's only interaction with the network; it
is modelled by an explicit oracle `http` mapping the requested URL to
either a response (status code and body) or a transport-level failure
(the exception caught by the `except` clause).  `fetch_html` is a total
function into `Option String`: `none` is the Python `None` returned on
the warning and error paths. -/

/-- Outcome of `requests.get(url, timeout=10)`: a response, or a raised
transport exception (DNS failure, timeout, connection reset, ...). -/
inductive FetchOutcome where
  | success (statusCode : Nat) (body : String)
  | transportError (msg : String)
deriving DecidableEq, Repr

/-- Lines 21-22: `if not url.startswith("http"): url = "https://" + url`. -/
def normalizeUrl (url : String) : String :=
  if url.startsWith "http" then url else "https://" ++ url

/-- `fetch_html` (lines 15-31): normalize the scheme, issue the request,
return the body on status 200, `None` (with a warning) on any other
status, and `None` (with an error message) when the request raises. -/
def fetch_html (url : String) (http : String → FetchOutcome) : Option String :=
  match http (normalizeUrl url) with
  | .success code body => if code = 200 then some body else none
  | .transportError _ => none

/-! ## Advisory generator (`call_seo_genie`, lines 117-141)

The external text-generation call is modelled by an explicit outcome:
`Except.ok text` for a completion and `Except.error reason` for any
exception raised by the client (missing API key included). -/

/-- The static three-item fallback advice returned on any service error
(lines 139-141). -/
def seoGenieFallback : String :=
  "1. Ensure your title is eye-catching and includes your main keyword.\n" ++
  "2. Spice up your meta description with a strong call-to-action.\n" ++
  "3. Add more engaging headings to structure your content effectively."

/-- `call_seo_genie` (lines 117-141): on success return
`completion.choices[0].text.strip()`; on any exception emit a warning and
return the static fallback. -/
def call_seo_genie (_page_title _meta_desc : String)
    (service : Except String String) : String :=
  match service with
  | .ok text => text.trim
  | .error _ => seoGenieFallback

/-! ## Orchestration: the comparison summary (`main`, lines 212-221)

After the two per-site blocks, `main` runs
`if url1 and url2: diff_score = (score1 - score2); ...`.
The variables `score1` and `score2` are bound only inside
`if html1:` / `if html2:`, so they exist exactly when the corresponding
URL was supplied and its fetch succeeded; we model each as an
`Option Int`.  Evaluating `score1 - score2` with an unbound variable
raises `NameError`, modelled by the `Except.error` branch. -/

/-- The three mutually exclusive comparison messages (lines 216-221). -/
inductive CompareMsg where
  | siteLeads (points : Int)
  | competitorLeads (points : Int)
  | tie
deriving DecidableEq, Repr

/-- The comparison block of `main` (lines 212-221).  `score1`/`score2`
are `some` exactly when the corresponding site block bound them, i.e.
when that URL was supplied and its fetch succeeded.  Returns `ok none`
when the block is skipped, `ok (some msg)` when it renders a message, and
`error` when it raises `NameError` on an unbound score variable. -/
def comparison_block (url1 url2 : String) (score1 score2 : Option Int) :
    Except String (Option CompareMsg) :=
  if url1 ≠ "" ∧ url2 ≠ "" then
    match score1, score2 with
    | some s1, some s2 =>
      let diff := s1 - s2
      .ok (some (if 0 < diff then .siteLeads diff
                 else if diff < 0 then .competitorLeads (-diff)
                 else .tie))
    | _, _ => .error "NameError"
  else
    .ok none

theorem strOfLen_length (n : Nat) : (strOfLen n).length = n := by
  simp [strOfLen, String.length]

theorem titleLenPoints_eq_spec (n : Nat) : titleLenPoints n = specTitlePoints n := by
  unfold titleLenPoints specTitlePoints
  split_ifs <;> omega

theorem descLenPoints_eq_spec (n : Nat) : descLenPoints n = specDescPoints n := by
  unfold descLenPoints specDescPoints
  split_ifs <;> omega

theorem h1Points_eq_spec (h : Headers) : h1Points h = specH1Points h := by
  unfold h1Points specH1Points
  split_ifs <;> omega

theorem titleLenPoints_bounds (n : Nat) :
    5 ≤ titleLenPoints n ∧ titleLenPoints n ≤ 20 := by
  unfold titleLenPoints
  split_ifs <;> omega

theorem descLenPoints_bounds (n : Nat) :
    5 ≤ descLenPoints n ∧ descLenPoints n ≤ 20 := by
  unfold descLenPoints
  split_ifs <;> omega

theorem h1Points_le (h : Headers) : h1Points h ≤ 20 := by
  unfold h1Points
  split_ifs <;> omega

theorem h2Points_le (h : Headers) : h2Points h ≤ 10 := by
  unfold h2Points
  split_ifs <;> omega

theorem h3Points_le (h : Headers) : h3Points h ≤ 10 := by
  unfold h3Points
  split_ifs <;> omega

/-- C1: the scorer awards points exactly per the §4.3 table — the five
branches of `calculate_seo_score` coincide with the table's rows (title
50-60 → 20, 30-49 or 61-70 → 10, otherwise 5; description 120-160 → 20,
80-119 or 161-200 → 10, otherwise 5; ≥1 h1 → 20 else 0; ≥1 h2 → +10;
≥2 h3 → +10) — and the band boundaries fall exactly as stated: title
length 49→10, 50→20, 60→20, 61→10, 70→10, 71→5, and description length
119→10, 120→20, 160→20, 161→10, 200→10, 201→5. -/
theorem C1_scorer_matches_table :
    (∀ (title meta_desc : String) (headers : Headers),
      calculate_seo_score title meta_desc headers =
        min (specTitlePoints title.length + specDescPoints meta_desc.length +
          specH1Points headers + specH2Points headers + specH3Points headers) 60) ∧
    titleLenPoints 49 = 10 ∧ titleLenPoints 50 = 20 ∧ titleLenPoints 60 = 20 ∧
    titleLenPoints 61 = 10 ∧ titleLenPoints 70 = 10 ∧ titleLenPoints 71 = 5 ∧
    descLenPoints 119 = 10 ∧ descLenPoints 120 = 20 ∧ descLenPoints 160 = 20 ∧
    descLenPoints 161 = 10 ∧ descLenPoints 200 = 10 ∧ descLenPoints 201 = 5 := by
  refine ⟨fun title meta_desc headers => ?_, by decide, by decide, by decide,
    by decide, by decide, by decide, by decide, by decide, by decide,
    by decide, by decide, by decide⟩
  unfold calculate_seo_score uncappedSeoScore
  rw [titleLenPoints_eq_spec, descLenPoints_eq_spec, h1Points_eq_spec]
  rfl

/-- C2: for every title, description and headings input, the score
returned by `calculate_seo_score` is an integer in the interval
`[0, 60]`. -/
theorem C2_score_in_range (title meta_desc : String) (headers : Headers) :
    0 ≤ (calculate_seo_score title meta_desc headers : ℤ) ∧
    (calculate_seo_score title meta_desc headers : ℤ) ≤ 60 := by
  refine ⟨Int.ofNat_nonneg _, ?_⟩
  have h : calculate_seo_score title meta_desc headers ≤ 60 :=
    Nat.min_le_right _ _
  exact_mod_cast h

/-- C3 counterexample: at title length 55, description length 140, one
h1, one h2 and two h3, the uncapped sum of the sub-scores is
20+20+20+10+10 = 80, which exceeds 60 — the cap in `calculate_seo_score`
is not redundant, contrary to the claim. -/
theorem C3_counterexample :
    uncappedSeoScore (strOfLen 55) (strOfLen 140)
        ⟨["Main"], ["Sub"], ["One", "Two"], []⟩ = 80 ∧
    ¬ uncappedSeoScore (strOfLen 55) (strOfLen 140)
        ⟨["Main"], ["Sub"], ["One", "Two"], []⟩ ≤ 60 := by
  constructor <;> decide

/-- C3 amended: the cap at 60 is not redundant — the uncapped sum of the
four signals can reach 80 (and never exceeds 80); in particular, for a
title of length 55, a description of length 140, one h1, one h2 and two
h3, the sub-scores are 20, 20, 20, 10, 10, their uncapped sum is 80, and
the returned score is `min 80 60 = 60`. -/
theorem C3_cap_binds :
    (∀ (title meta_desc : String) (headers : Headers),
      uncappedSeoScore title meta_desc headers ≤ 80 ∧
      calculate_seo_score title meta_desc headers =
        min (uncappedSeoScore title meta_desc headers) 60) ∧
    titleLenPoints 55 = 20 ∧ descLenPoints 140 = 20 ∧
    uncappedSeoScore (strOfLen 55) (strOfLen 140)
        ⟨["Main"], ["Sub"], ["One", "Two"], []⟩ = 80 ∧
    calculate_seo_score (strOfLen 55) (strOfLen 140)
        ⟨["Main"], ["Sub"], ["One", "Two"], []⟩ = 60 := by
  refine ⟨fun title meta_desc headers => ⟨?_, rfl⟩, by decide, by decide,
    by decide, by decide⟩
  have ht := (titleLenPoints_bounds title.length).2
  have hd := (descLenPoints_bounds meta_desc.length).2
  have h1 := h1Points_le headers
  have h2 := h2Points_le headers
  have h3 := h3Points_le headers
  unfold uncappedSeoScore
  omega

/-- C9 counterexample: a title of length 71 is at distance 16 from the
band midpoint 55, the same distance as a title of length 39, yet it
scores 5 while the length-39 title scores 10 — the title sub-score is not
monotone in the distance from the midpoint across both sides. -/
theorem C9_counterexample :
    |((strOfLen 71).length : ℤ) - 55| ≤ |((strOfLen 39).length : ℤ) - 55| ∧
    ¬ titleLenPoints (strOfLen 39).length ≤ titleLenPoints (strOfLen 71).length := by
  constructor <;> decide

/-- C9 amended: the title sub-score is monotonically non-increasing in
the distance of the title's length from the midpoint 55 when the two
titles lie on the same side of the midpoint (both lengths at least 55 or
both at most 55); across the two sides the bands are asymmetric and the
monotonicity fails. -/
theorem C9_title_points_monotone_sided (t1 t2 : String)
    (hside : (55 ≤ t1.length ∧ 55 ≤ t2.length) ∨ (t1.length ≤ 55 ∧ t2.length ≤ 55))
    (hdist : |((t1.length : ℤ)) - 55| ≤ |((t2.length : ℤ)) - 55|) :
    titleLenPoints t2.length ≤ titleLenPoints t1.length := by
  rcases hside with ⟨ha, hb⟩ | ⟨ha, hb⟩ <;>
    rcases abs_cases ((t1.length : ℤ) - 55) with ⟨e1, s1⟩ | ⟨e1, s1⟩ <;>
    rcases abs_cases ((t2.length : ℤ) - 55) with ⟨e2, s2⟩ | ⟨e2, s2⟩ <;>
    rw [e1, e2] at hdist <;>
    (unfold titleLenPoints; split_ifs <;> omega)

/-- C9 witness: concrete instantiation of the one-sided monotonicity at
titles of lengths 60 and 61 (both at least 55; distances 5 and 6). -/
theorem C9_title_points_monotone_sided_witness :
    ((55 ≤ (strOfLen 60).length ∧ 55 ≤ (strOfLen 61).length) ∨
      ((strOfLen 60).length ≤ 55 ∧ (strOfLen 61).length ≤ 55)) ∧
    |((strOfLen 60).length : ℤ) - 55| ≤ |((strOfLen 61).length : ℤ) - 55| ∧
    titleLenPoints (strOfLen 61).length ≤ titleLenPoints (strOfLen 60).length :=
  ⟨Or.inl (by decide), by decide,
    C9_title_points_monotone_sided (strOfLen 60) (strOfLen 61)
      (Or.inl (by decide)) (by decide)⟩

/-- C10: the scorer's result is in fact bounded below by 10 — the title
branch contributes at least 5 and the description branch at least 5, so
`calculate_seo_score` always lies in `[10, 60]`. -/
theorem C10_score_range_tight (title meta_desc : String) (headers : Headers) :
    10 ≤ calculate_seo_score title meta_desc headers ∧
    calculate_seo_score title meta_desc headers ≤ 60 := by
  have ht := (titleLenPoints_bounds title.length).1
  have hd := (descLenPoints_bounds meta_desc.length).1
  unfold calculate_seo_score uncappedSeoScore
  omega

theorem dropWhile_head_false {p : Char → Bool} :
    ∀ {l : List Char} {d : Char} {ds : List Char},
      l.dropWhile p = d :: ds → p d = false := by
  intro l
  induction l with
  | nil => intro d ds h; simp [List.dropWhile] at h
  | cons c cs ih =>
    intro d ds h
    rw [List.dropWhile] at h
    split at h
    · exact ih h
    · rename_i hc
      cases h
      simpa using hc

/-- On character lists free of non-letter word characters (no digits, no
underscores), the `\b`-delimited scan of the code agrees with the
separator-based scan of the spec: every letter run is then bounded by
word boundaries on both sides. -/
theorem tokenScan_eq_sepScan (fuel : Nat) :
    ∀ l : List Char, l.length ≤ fuel →
      (∀ c ∈ l, isWordChar c = c.isAlpha) →
      tokenScan fuel true l = sepScan fuel l := by
  induction fuel using Nat.strong_induction_on with
  | _ fuel ih =>
    intro l hl hw
    cases l with
    | nil => cases fuel <;> rfl
    | cons c cs =>
      cases fuel with
      | zero => simp at hl
      | succ n =>
        simp only [List.length_cons] at hl
        by_cases hc : c.isAlpha = true
        · rw [tokenScan, sepScan]
          simp only [hc, if_true]
          have hbd : boundaryAfter (cs.dropWhile Char.isAlpha) = true := by
            cases hrest : cs.dropWhile Char.isAlpha with
            | nil => rfl
            | cons d ds =>
              have hd : d.isAlpha = false := dropWhile_head_false hrest
              have hmem : d ∈ cs := (List.dropWhile_sublist _).subset
                (hrest ▸ List.mem_cons_self d ds)
              have hwd := hw d (List.mem_cons_of_mem c hmem)
              simp [boundaryAfter, hwd, hd]
          rw [hbd]
          simp only [Bool.true_and, Bool.and_true, decide_eq_true_eq]
          congr 1
          cases hrest : cs.dropWhile Char.isAlpha with
          | nil => cases n <;> rfl
          | cons d ds =>
            have hd : d.isAlpha = false := dropWhile_head_false hrest
            have hmemd : d ∈ cs := (List.dropWhile_sublist _).subset
              (hrest ▸ List.mem_cons_self d ds)
            have hwd : isWordChar d = false :=
              (hw d (List.mem_cons_of_mem c hmemd)).trans hd
            have hlen : ds.length + 1 ≤ cs.length := by
              have hsub := (List.dropWhile_sublist Char.isAlpha (l := cs)).length_le
              rw [hrest] at hsub
              simpa using hsub
            cases n with
            | zero => omega
            | succ m =>
              rw [tokenScan, sepScan]
              simp only [hd, Bool.false_eq_true, if_false, hwd, Bool.not_false]
              have hds : ds.length ≤ m := by omega
              have hwds : ∀ x ∈ ds, isWordChar x = x.isAlpha := by
                intro x hx
                have hx' : x ∈ cs.dropWhile Char.isAlpha :=
                  hrest ▸ List.mem_cons_of_mem d hx
                exact hw x (List.mem_cons_of_mem c
                  ((List.dropWhile_sublist _).subset hx'))
              exact ih m (by omega) ds hds hwds
        · rw [tokenScan, sepScan]
          have hc' : c.isAlpha = false := by simpa using hc
          simp only [hc', Bool.false_eq_true, if_false]
          have hwc : isWordChar c = false := (hw c (List.mem_cons_self c cs)).trans hc'
          rw [hwc]
          simp only [Bool.not_false]
          exact ih n (Nat.lt_succ_self n) cs (by omega)
            (fun x hx => hw x (List.mem_cons_of_mem c hx))

/-- C4 counterexample: tokenizing "a1 bb ccc dd-ee" yields only the token
"ccc" — "dd" and "ee" are shorter than 3 letters and are discarded, so
the claimed token list ["ccc","dd","ee"] is wrong; moreover digits do not
act as plain separators: in "abc1 hello world" the run "abc" is adjacent
to a digit (no word boundary), so the code drops it entirely while the
separator reading would keep it. -/
theorem C4_counterexample :
    tokensOf "a1 bb ccc dd-ee" ≠ ["ccc", "dd", "ee"] ∧
    tokensOf "a1 bb ccc dd-ee" = ["ccc"] ∧
    tokensOf "abc1 hello world" = ["hello", "world"] ∧
    sepTokensOf "abc1 hello world" = ["abc", "hello", "world"] := by
  refine ⟨by decide, by decide, by decide, by decide⟩

/-- C4 amended: the tokenizer matches `\b[a-zA-Z]{3,}\b` on the
lowercased text — maximal runs of 3+ ASCII letters delimited by word
boundaries, where `\w` is Unicode-aware (digits, underscores and
non-ASCII letters are all word characters).  A letter run adjacent to
any word character is dropped entirely, and runs shorter than 3 letters
are discarded.  Only on ASCII text free of digits and underscores —
the domain on which `\w` coincides with `[a-zA-Z0-9_]` and this
embedding is exact — does the tokenization coincide with "every other
character acts as a separator".  Tokenizing "a1 bb ccc dd-ee" yields
exactly [("ccc", 1)]. -/
theorem C4_tokenizer_word_boundaries :
    (∀ text : String,
      (∀ c ∈ text.data.map Char.toLower,
        c.toNat < 128 ∧ c.isDigit = false ∧ c ≠ '_') →
      tokensOf text = sepTokensOf text) ∧
    get_top_keywords "a1 bb ccc dd-ee" 10 = [("ccc", 1)] := by
  refine ⟨fun text h => ?_, by decide⟩
  have h' : ∀ c ∈ text.data.map Char.toLower, isWordChar c = c.isAlpha := by
    intro c hc
    obtain ⟨-, hd, hu⟩ := h c hc
    simp [isWordChar, Char.isAlphanum, hd, hu]
  unfold tokensOf sepTokensOf
  rw [tokenScan_eq_sepScan _ _ (le_refl _) h']

/-- C4 witness: on an ASCII, digit- and underscore-free text the two
tokenizers agree, instantiated at "Cat catalog-dog!". -/
theorem C4_tokenizer_word_boundaries_witness :
    (∀ c ∈ ("Cat catalog-dog!".data.map Char.toLower),
      c.toNat < 128 ∧ c.isDigit = false ∧ c ≠ '_') ∧
    tokensOf "Cat catalog-dog!" = sepTokensOf "Cat catalog-dog!" :=
  ⟨by decide, C4_tokenizer_word_boundaries.1 "Cat catalog-dog!" (by decide)⟩

theorem mem_insertByCountDesc {x p : String × Nat} :
    ∀ {l : List (String × Nat)}, x ∈ insertByCountDesc p l → x = p ∨ x ∈ l := by
  intro l
  induction l with
  | nil =>
    intro h
    simpa [insertByCountDesc] using h
  | cons q rest ih =>
    intro h
    rw [insertByCountDesc] at h
    split at h
    · rcases List.mem_cons.mp h with h1 | h2
      · exact Or.inr (h1 ▸ List.mem_cons_self _ _)
      · rcases ih h2 with h3 | h4
        · exact Or.inl h3
        · exact Or.inr (List.mem_cons_of_mem _ h4)
    · rcases List.mem_cons.mp h with h1 | h2
      · exact Or.inl h1
      · exact Or.inr h2

/-- Stable insertion preserves both the descending order by count and any
pairwise tie relation, provided the inserted element stands in the tie
relation to everything already placed (it came later in the original
order). -/
theorem insertByCountDesc_pairwise (R : String × Nat → String × Nat → Prop)
    (p : String × Nat) :
    ∀ l : List (String × Nat),
      l.Pairwise (fun a b => b.2 ≤ a.2) →
      l.Pairwise (fun a b => a.2 = b.2 → R a b) →
      (∀ q ∈ l, q.2 = p.2 → R q p) →
      (insertByCountDesc p l).Pairwise (fun a b => b.2 ≤ a.2) ∧
      (insertByCountDesc p l).Pairwise (fun a b => a.2 = b.2 → R a b) := by
  intro l
  induction l with
  | nil =>
    intro _ _ _
    constructor <;> simp [insertByCountDesc]
  | cons q rest ih =>
    intro hGe hT hall
    rw [List.pairwise_cons] at hGe hT
    obtain ⟨hGe1, hGe2⟩ := hGe
    obtain ⟨hT1, hT2⟩ := hT
    have hallq := hall q (List.mem_cons_self q rest)
    have hallrest : ∀ y ∈ rest, y.2 = p.2 → R y p :=
      fun y hy => hall y (List.mem_cons_of_mem q hy)
    obtain ⟨ge', t'⟩ := ih hGe2 hT2 hallrest
    rw [insertByCountDesc]
    split
    · rename_i hple
      refine ⟨List.pairwise_cons.mpr ⟨?_, ge'⟩, List.pairwise_cons.mpr ⟨?_, t'⟩⟩
      · intro y hy
        rcases mem_insertByCountDesc hy with h1 | h2
        · subst h1
          exact hple
        · exact hGe1 y h2
      · intro y hy
        rcases mem_insertByCountDesc hy with h1 | h2
        · subst h1
          exact hallq
        · exact hT1 y h2
    · rename_i hgt
      have hqlt : q.2 < p.2 := Nat.lt_of_not_le hgt
      refine ⟨List.pairwise_cons.mpr ⟨?_, List.pairwise_cons.mpr ⟨hGe1, hGe2⟩⟩,
        List.pairwise_cons.mpr ⟨?_, List.pairwise_cons.mpr ⟨hT1, hT2⟩⟩⟩
      · intro y hy
        rcases List.mem_cons.mp hy with h1 | h2
        · subst h1
          exact Nat.le_of_lt hqlt
        · exact Nat.le_trans (hGe1 y h2) (Nat.le_of_lt hqlt)
      · intro y hy hpy
        rcases List.mem_cons.mp hy with h1 | h2
        · subst h1
          exact absurd hpy (by omega)
        · have := hGe1 y h2
          exact absurd hpy (by omega)

theorem foldl_insert_pairwise (R : String × Nat → String × Nat → Prop) :
    ∀ (rest acc : List (String × Nat)),
      acc.Pairwise (fun a b => b.2 ≤ a.2) →
      acc.Pairwise (fun a b => a.2 = b.2 → R a b) →
      rest.Pairwise (fun a b => a.2 = b.2 → R a b) →
      (∀ y ∈ acc, ∀ x ∈ rest, y.2 = x.2 → R y x) →
      (rest.foldl (fun acc p => insertByCountDesc p acc) acc).Pairwise
        (fun a b => b.2 ≤ a.2) ∧
      (rest.foldl (fun acc p => insertByCountDesc p acc) acc).Pairwise
        (fun a b => a.2 = b.2 → R a b) := by
  intro rest
  induction rest with
  | nil =>
    intro acc h1 h2 _ _
    exact ⟨h1, h2⟩
  | cons x rest' ih =>
    intro acc hGe hT hrest hcross
    rw [List.foldl_cons]
    rw [List.pairwise_cons] at hrest
    obtain ⟨hrx, hrest'⟩ := hrest
    obtain ⟨hGe', hT'⟩ := insertByCountDesc_pairwise R x acc hGe hT
      (fun q hq => hcross q hq x (List.mem_cons_self x rest'))
    refine ih (insertByCountDesc x acc) hGe' hT' hrest' ?_
    intro y hy z hz
    rcases mem_insertByCountDesc hy with h1 | h2
    · subst h1
      exact hrx z hz
    · exact hcross y h2 z (List.mem_cons_of_mem x hz)

/-- The stable descending sort of `get_top_keywords` is descending by
count, and preserves any pairwise tie relation of its input. -/
theorem sortByCountDesc_pairwise (R : String × Nat → String × Nat → Prop)
    (l : List (String × Nat)) (hT : l.Pairwise fun a b => a.2 = b.2 → R a b) :
    (sortByCountDesc l).Pairwise (fun a b => b.2 ≤ a.2) ∧
    (sortByCountDesc l).Pairwise (fun a b => a.2 = b.2 → R a b) :=
  foldl_insert_pairwise R l [] List.Pairwise.nil List.Pairwise.nil hT
    (fun y hy => absurd hy (List.not_mem_nil y))

theorem indexOf_append_left {a : String} :
    ∀ {l : List String} (t : List String), a ∈ l →
      (l ++ t).indexOf a = l.indexOf a := by
  intro l
  induction l with
  | nil =>
    intro t h
    exact absurd h (List.not_mem_nil a)
  | cons b bs ih =>
    intro t h
    by_cases hb : b = a
    · subst hb
      simp [List.indexOf_cons]
    · have h' : a ∈ bs := by
        rcases List.mem_cons.mp h with h1 | h2
        · exact absurd h1.symm hb
        · exact h2
      rw [List.cons_append, List.indexOf_cons, List.indexOf_cons]
      simp [hb, ih t h']

theorem indexOf_concat_self {a : String} :
    ∀ {l : List String}, a ∉ l → (l ++ [a]).indexOf a = l.length := by
  intro l
  induction l with
  | nil =>
    intro _
    simp [List.indexOf_cons]
  | cons b bs ih =>
    intro h
    have hb : b ≠ a := fun he => h (List.mem_cons.mpr (Or.inl he.symm))
    have h' : a ∉ bs := fun hm => h (List.mem_cons_of_mem b hm)
    rw [List.cons_append, List.indexOf_cons]
    have hba : (b == a) = false := beq_eq_false_iff_ne.mpr hb
    simp [hba, ih h']

/-- `freq[w] = freq.get(w, 0) + 1` leaves the key sequence unchanged when
`w` is already a key, and appends `w` otherwise — a Python dict preserves
insertion order. -/
theorem keys_bump (w : String) :
    ∀ l : List (String × Nat),
      (bump l w).map Prod.fst =
        if w ∈ l.map Prod.fst then l.map Prod.fst
        else l.map Prod.fst ++ [w] := by
  intro l
  induction l with
  | nil => simp [bump]
  | cons q rest ih =>
    obtain ⟨k, v⟩ := q
    by_cases hk : k = w
    · subst hk
      simp [bump]
    · rw [bump]
      rw [if_neg hk]
      by_cases hw' : w ∈ rest.map Prod.fst
      · simp [ih, hw', Ne.symm hk]
      · simp [ih, hw', Ne.symm hk]

/-- The `freq` dict of `get_top_keywords` lists its keys in first-occurrence
order: its key set is exactly the set of tokens, and its entries are
pairwise ordered by the key's first index in the token stream. -/
theorem countFreq_keys (ws : List String) :
    (∀ a, a ∈ (countFreq ws).map Prod.fst ↔ a ∈ ws) ∧
    (countFreq ws).Pairwise
      (fun p q => ws.indexOf p.1 < ws.indexOf q.1) := by
  induction ws using List.reverseRecOn with
  | nil =>
    constructor
    · intro a
      simp [countFreq]
    · simp [countFreq]
  | append_singleton ws w ih =>
    obtain ⟨ihk, ihpw⟩ := ih
    have hcf : countFreq (ws ++ [w]) = bump (countFreq ws) w := by
      unfold countFreq
      rw [List.foldl_append]
      rfl
    rw [hcf]
    have hkeys := keys_bump w (countFreq ws)
    have hpwkeys : ((countFreq ws).map Prod.fst).Pairwise
        (fun a b => (ws ++ [w]).indexOf a < (ws ++ [w]).indexOf b) := by
      refine List.pairwise_map.mpr (ihpw.imp_of_mem ?_)
      intro p q hp hq hlt
      have hpws : p.1 ∈ ws := (ihk p.1).mp (List.mem_map_of_mem Prod.fst hp)
      have hqws : q.1 ∈ ws := (ihk q.1).mp (List.mem_map_of_mem Prod.fst hq)
      rw [indexOf_append_left _ hpws, indexOf_append_left _ hqws]
      exact hlt
    by_cases hwk : w ∈ (countFreq ws).map Prod.fst
    · rw [if_pos hwk] at hkeys
      constructor
      · intro a
        rw [hkeys]
        constructor
        · intro ha
          exact List.mem_append_left _ ((ihk a).mp ha)
        · intro ha
          rcases List.mem_append.mp ha with h1 | h2
          · exact (ihk a).mpr h1
          · have ha' : a = w := by simpa using h2
            exact ha' ▸ hwk
      · have hmap : ((bump (countFreq ws) w).map Prod.fst).Pairwise
            (fun a b => (ws ++ [w]).indexOf a < (ws ++ [w]).indexOf b) := by
          rw [hkeys]
          exact hpwkeys
        exact (List.pairwise_map (f := Prod.fst)).mp hmap
    · rw [if_neg hwk] at hkeys
      have hwws : w ∉ ws := fun hm => hwk ((ihk w).mpr hm)
      constructor
      · intro a
        rw [hkeys]
        by_cases haw : a = w
        · subst haw
          simp
        · simp [ihk a, haw]
      · have hmap : ((bump (countFreq ws) w).map Prod.fst).Pairwise
            (fun a b => (ws ++ [w]).indexOf a < (ws ++ [w]).indexOf b) := by
          rw [hkeys]
          refine List.pairwise_append.mpr ⟨hpwkeys, List.pairwise_singleton _ _, ?_⟩
          intro a ha b hb
          have hb' : b = w := by simpa using hb
          subst hb'
          have haws : a ∈ ws := (ihk a).mp ha
          rw [indexOf_append_left _ haws, indexOf_concat_self hwws]
          exact List.indexOf_lt_length.mpr haws
        exact (List.pairwise_map (f := Prod.fst)).mp hmap

/-- C5: `get_top_keywords` returns at most `top_n` pairs, sorted by
count descending, with equal counts ordered by the term's first
occurrence in the token stream (the stable sort over the dict's
insertion order); `get_top_keywords "cat cat dog dog dog bird" 2` is
exactly `[("dog", 3), ("cat", 2)]`. -/
theorem C5_top_keywords_order (text : String) (top_n : Nat) :
    (get_top_keywords text top_n).length ≤ top_n ∧
    (get_top_keywords text top_n).Pairwise (fun p q => q.2 ≤ p.2) ∧
    (get_top_keywords text top_n).Pairwise
      (fun p q => p.2 = q.2 →
        (tokensOf text).indexOf p.1 < (tokensOf text).indexOf q.1) ∧
    get_top_keywords "cat cat dog dog dog bird" 2 = [("dog", 3), ("cat", 2)] := by
  have hT : (countFreq (tokensOf text)).Pairwise
      (fun p q => p.2 = q.2 →
        (tokensOf text).indexOf p.1 < (tokensOf text).indexOf q.1) := by
    refine (countFreq_keys (tokensOf text)).2.imp ?_
    intro p q h _
    exact h
  obtain ⟨hGe, hT'⟩ := sortByCountDesc_pairwise _ (countFreq (tokensOf text)) hT
  refine ⟨List.length_take_le _ _, ?_, ?_, by decide⟩
  · exact hGe.sublist (List.take_sublist _ _)
  · exact hT'.sublist (List.take_sublist _ _)

/-- C6: the comparison block of `main` is guarded only by
`if url1 and url2`, not by fetch success — when both URLs are supplied
and a fetch failed, the block still runs and evaluates `score1 - score2`
with an unbound variable, raising `NameError` (the spec says the
summarizing step is skipped unless both fetches succeeded).  When both
scores exist it renders exactly one of the three messages: 40 vs 25 gives
"leads by 15", 25 vs 40 gives "competitor leads by 15", equal scores give
the tie message; with a missing URL the block is skipped. -/
theorem C6_comparison_block_behavior :
    comparison_block "example.com" "competitor.com" none (some 25) =
      .error "NameError" ∧
    comparison_block "example.com" "competitor.com" (some 40) (some 25) =
      .ok (some (.siteLeads 15)) ∧
    comparison_block "example.com" "competitor.com" (some 25) (some 40) =
      .ok (some (.competitorLeads 15)) ∧
    comparison_block "example.com" "competitor.com" (some 30) (some 30) =
      .ok (some .tie) ∧
    comparison_block "" "competitor.com" none none = .ok none := by
  refine ⟨?_, ?_, ?_, ?_, ?_⟩ <;> rfl

/-- C7 counterexample: a 201 response is a success (2xx) status, yet
`fetch_html` compares the status against exactly 200 and returns `None`
instead of the body. -/
theorem C7_counterexample :
    fetch_html "https://example.com" (fun _ => FetchOutcome.success 201 "ok") ≠
      some "ok" ∧
    fetch_html "https://example.com" (fun _ => FetchOutcome.success 201 "ok") =
      none := by
  refine ⟨?_, rfl⟩
  intro h
  rw [show fetch_html "https://example.com"
      (fun _ => FetchOutcome.success 201 "ok") = none from rfl] at h
  exact Option.noConfusion h

/-- C7 amended: `fetch_html` never propagates an exception; it returns
the response body exactly when the status code equals 200, and returns
`None` (the absence value) on every other status — other 2xx codes
included — and on every transport-level failure. -/
theorem C7_fetch_none_unless_200 (url : String) (http : String → FetchOutcome) :
    (∀ body, http (normalizeUrl url) = .success 200 body →
      fetch_html url http = some body) ∧
    (∀ code body, http (normalizeUrl url) = .success code body → code ≠ 200 →
      fetch_html url http = none) ∧
    (∀ msg, http (normalizeUrl url) = .transportError msg →
      fetch_html url http = none) := by
  refine ⟨fun body h => ?_, fun code body h hne => ?_, fun msg h => ?_⟩ <;>
    unfold fetch_html <;> rw [h] <;> simp [*]

/-- C7 witness: the amended theorem instantiated at a 404 response — the
fetcher returns the absence value. -/
theorem C7_fetch_none_unless_200_witness :
    ((fun _ : String => FetchOutcome.success 404 "not found")
        (normalizeUrl "example.com") = FetchOutcome.success 404 "not found" ∧
      (404 : Nat) ≠ 200) ∧
    fetch_html "example.com" (fun _ => FetchOutcome.success 404 "not found") =
      none :=
  ⟨⟨rfl, by decide⟩,
    (C7_fetch_none_unless_200 "example.com"
      (fun _ => FetchOutcome.success 404 "not found")).2.1 404 "not found" rfl
      (by decide)⟩

/-- C8: the advisory generator never raises to its caller — on any error
from the external service (absent credential included) it returns the
fixed three-item static fallback text verbatim, and on success it returns
the trimmed generated text. -/
theorem C8_genie_fallback (page_title meta_desc generated err : String) :
    call_seo_genie page_title meta_desc (.ok generated) = generated.trim ∧
    call_seo_genie page_title meta_desc (.error err) = seoGenieFallback :=
  ⟨rfl, rfl⟩

end SeoApp
